import Mathlib

/-!
Verification of the `wxBitmapBundle` design (interface `src/interface/wx/bmpbndl.h`).

The repository segment under verification contains only the interface
documentation of `wxBitmapBundle`; the executable logic (the variant set,
the size resolver, the rescale cache and the bundle composition) is not
present under `src/`.  Following the specification, those components are
modelled here from the spec's words and the claims are settled against the
model.
-/

namespace BmpBndl

/-- Modelled from the spec (§3, Data model; the implementation behind
`src/interface/wx/bmpbndl.h` is missing from `src/`): a `Size` is a pair of
integers (width, height). Two Sizes are equal iff both components match. -/
structure Size where
  w : Int
  h : Int
deriving DecidableEq, Repr

/-- Modelled from the spec: a Size is *empty* if either component is zero or
negative. -/
def Size.isEmpty (s : Size) : Prop := s.w ≤ 0 ∨ s.h ≤ 0

instance (s : Size) : Decidable s.isEmpty :=
  inferInstanceAs (Decidable (s.w ≤ 0 ∨ s.h ≤ 0))

/-- Modelled from the spec (§6, Image capability): `Area(size)`, the product
width×height used to pick the smallest variant. -/
def Size.area (s : Size) : Int := s.w * s.h

/-- Modelled from the spec (§3): an opaque raster image.  The core observes a
raster only through the Image capability: its validity flag, its intrinsic
size, and an identity tag distinguishing rasters of equal size. -/
structure Raster where
  ok : Bool
  size : Size
  tag : Nat
deriving DecidableEq, Repr

namespace Image

/-- Modelled from the spec (§6): `Validate(raster) -> bool`; a raster is
usable when it is valid and non-empty. -/
def validate (r : Raster) : Bool := r.ok && !(decide r.size.isEmpty)

/-- Modelled from the spec (§6): `Resize(source, target)` produces a raster of
exactly `target` size from the source raster. -/
def resize (src : Raster) (target : Size) : Raster :=
  { ok := true, size := target, tag := src.tag }

end Image

/-- Modelled from the spec (§3): a VariantSet is an ordered sequence of
raster variants, each carrying its intrinsic size. -/
abbrev VariantSet := List Raster

namespace VariantSet

/-- Modelled from the spec (§4.1): `FromRasters` fails (empty sentinel) on an
empty input sequence, and the whole construction is rejected if any element is
an invalid raster; otherwise insertion order is preserved. -/
def fromRasters (rs : List Raster) : VariantSet :=
  if rs.isEmpty then []
  else if rs.all Image.validate then rs else []

/-- Modelled from the spec (§4.1): `FromSingle`: invalid raster gives the
empty sentinel, otherwise a one-element set. -/
def fromSingle (r : Raster) : VariantSet :=
  if Image.validate r then [r] else []

end VariantSet

/-- Strict lexicographic order on pairs of rationals, used to express the
resolver's preference key (scale distance, then upscale penalty) and the
default-size key (area). -/
def lexLt (a b : ℚ × ℚ) : Prop := a.1 < b.1 ∨ (a.1 = b.1 ∧ a.2 < b.2)

instance (a b : ℚ × ℚ) : Decidable (lexLt a b) :=
  inferInstanceAs (Decidable (a.1 < b.1 ∨ (a.1 = b.1 ∧ a.2 < b.2)))

/-- Left fold selecting the first element (in insertion order) whose key is
minimal for the lexicographic order: a later element replaces the current
best only when its key is strictly smaller. -/
def selectBy {α : Type} (k : α → ℚ × ℚ) (b : α) (l : List α) : α :=
  l.foldl (fun best v => if lexLt (k v) (k best) then v else best) b

/-- Modelled from the spec (§4.1): `DefaultSize` is the size of the smallest
variant by area (width×height), ties resolved in favour of the first variant
in insertion order; undefined on an empty set. -/
def VariantSet.defaultSize : VariantSet → Option Size
  | [] => none
  | r :: rest => some (selectBy (fun v => ((v.size.area : ℚ), 0)) r rest).size

/-- Executable maximum of two rationals (shown equal to `max` below). -/
def qmax (a b : ℚ) : ℚ := if a < b then b else a

/-- Executable absolute value of a rational (shown equal to `|·|` below). -/
def qabs (q : ℚ) : ℚ := if q < 0 then -q else q

/-- Executable subtraction of two rationals (shown equal to `a - b` below). -/
def qsub (a b : ℚ) : ℚ :=
  Rat.divInt (a.num * (b.den : Int) - b.num * (a.den : Int))
    ((a.den : Int) * (b.den : Int))

/-- Modelled from the spec (§4.2): the uniform scale factor
`max(target.width / variant.width, target.height / variant.height)`,
computed with exact rational division of the integer dimensions. -/
def scaleFactor (target : Size) (v : Raster) : ℚ :=
  qmax (Rat.divInt target.w v.size.w) (Rat.divInt target.h v.size.h)

/-- Distance of the scale factor from 1.0 (the resolver prefers the factor
closest to 1.0). -/
def scaleDist (target : Size) (v : Raster) : ℚ :=
  qabs (qsub (scaleFactor target v) 1)

/-- Preference key of the resolver: scale distance first, then an upscale
penalty (0 when `scaleFactor ≤ 1`, i.e. no upscaling needed, 1 otherwise);
insertion order breaks the remaining ties via `selectBy`. -/
def resolveKey (target : Size) (v : Raster) : ℚ × ℚ :=
  (scaleDist target v, if scaleFactor target v ≤ 1 then 0 else 1)

/-- Modelled from the spec (§4.2, SizeResolver): `Resolve(set, target)`
returns the first exact-size match if one exists, otherwise the variant whose
scale factor is closest to 1.0, preferring no-upscale variants among ties and
the first in insertion order among remaining ties. Returns `none` only on an
empty set (a precondition violation). -/
def resolve (set : VariantSet) (target : Size) : Option Raster :=
  match set.find? (fun v => decide (v.size = target)) with
  | some v => some v
  | none =>
    match set with
    | [] => none
    | r :: rest => some (selectBy (resolveKey target) r rest)

/-- Modelled from the spec (§4.3): the RescaleCache, a mapping from requested
Size to a previously produced raster, represented as an association list in
insertion order. -/
abbrev RescaleCache := List (Size × Raster)

namespace RescaleCache

/-- Modelled from the spec (§4.3): `Lookup(target)` returns a previously
cached raster for exactly `target`, or nothing.  It is a pure function and
does not modify the cache. -/
def lookup (c : RescaleCache) (target : Size) : Option Raster :=
  (c.find? (fun e => decide (e.1 = target))).map (fun e => e.2)

/-- Modelled from the spec (§4.3): `Store(target, raster)` inserts or
overwrites the entry for `target` and never removes entries. -/
def store (c : RescaleCache) (target : Size) (r : Raster) : RescaleCache :=
  if (c.find? (fun e => decide (e.1 = target))).isSome then
    c.map (fun e => if e.1 = target then (target, r) else e)
  else
    c ++ [(target, r)]

end RescaleCache

/-- Errors of the bundle contract, modelled from the spec (§7). -/
inductive BundleError where
  | invalidBundle
  | invalidSize
deriving DecidableEq, Repr

/-- Modelled from the spec (§3): the shared state behind a bundle handle, a
(VariantSet, RescaleCache) pair. -/
structure BundleState where
  variants : VariantSet
  cache : RescaleCache
deriving DecidableEq

/-- Modelled from the spec (§3): a default-constructed / sentinel bundle
state: empty VariantSet, empty cache. -/
def emptyBundle : BundleState := { variants := [], cache := [] }

/-- Modelled from the spec (§4.4): `IsOk` is true iff the underlying
VariantSet is non-empty. -/
def BundleState.isOk (st : BundleState) : Bool := !st.variants.isEmpty

/-- Modelled from the spec (§4.4): `DefaultSize` delegates to
`VariantSet.DefaultSize` and fails with `InvalidBundle` if the bundle is not
OK. -/
def getDefaultSize (st : BundleState) : Except BundleError Size :=
  match st.variants.defaultSize with
  | some s => .ok s
  | none => .error .invalidBundle

/-- Modelled from the spec (§4.4, `GetBitmap`): fails with `InvalidBundle` if
not OK, then with `InvalidSize` if the target is empty; returns an exact-size
variant directly; otherwise consults the cache, and on a miss resolves a
source variant, rescales it to exactly the target size, stores and returns
the result.  The returned triple is (result, cache after the call, number of
Image-capability rescale invocations performed). -/
def getBitmap (st : BundleState) (target : Size) :
    Except BundleError Raster × RescaleCache × Nat :=
  if st.variants = [] then (.error .invalidBundle, st.cache, 0)
  else if target.isEmpty then (.error .invalidSize, st.cache, 0)
  else
    match st.variants.find? (fun v => decide (v.size = target)) with
    | some v => (.ok v, st.cache, 0)
    | none =>
      match RescaleCache.lookup st.cache target with
      | some r => (.ok r, st.cache, 0)
      | none =>
        match resolve st.variants target with
        | some src =>
          (.ok (Image.resize src target),
           RescaleCache.store st.cache target (Image.resize src target), 1)
        | none => (.error .invalidBundle, st.cache, 0)

/-- Modelled from the spec (§6): `FromBitmaps(collection)` routes through
`VariantSet.FromRasters`; a fresh bundle starts with an empty cache. -/
def fromBitmaps (bs : List Raster) : BundleState :=
  { variants := VariantSet.fromRasters bs, cache := [] }

/-- Modelled from the spec (§6): the two-element convenience overload
`FromBitmaps(a, b)` routes through `VariantSet.FromRasters` on the
two-element sequence [a, b], preserving that order. -/
def fromBitmaps2 (a b : Raster) : BundleState :=
  { variants := VariantSet.fromRasters [a, b], cache := [] }

/-- Modelled from the spec (§6): `FromBitmap(single)` routes through
`VariantSet.FromSingle`. -/
def fromBitmap (b : Raster) : BundleState :=
  { variants := VariantSet.fromSingle b, cache := [] }

/-- Modelled from the spec (the header's conversion constructor
`wxBitmapBundle(const wxBitmap&)`, documented to do the same thing as
`FromBitmap`): invalid bitmap gives the empty sentinel, otherwise a
one-variant bundle with an empty cache. -/
def bundleOfBitmap (b : Raster) : BundleState :=
  { variants := if Image.validate b then [b] else [], cache := [] }

/-- Modelled from the spec (§3, §9): the store of shared (VariantSet,
RescaleCache) states; every bundle handle holds an index into it. -/
structure Heap where
  states : List BundleState
deriving DecidableEq

/-- Modelled from the spec (§3): a BitmapBundle is a thin value-type handle
holding a reference to one shared (VariantSet, RescaleCache) pair. -/
structure BitmapBundle where
  ref : Nat
deriving DecidableEq

/-- Modelled from the spec (§3): copying a BitmapBundle shares the underlying
state: the copy holds the same reference, no cache contents are copied. -/
def BitmapBundle.copy (b : BitmapBundle) : BitmapBundle := { ref := b.ref }

/-- Modelled from the spec (§4.4): assignment makes the destination handle
refer to the same shared (VariantSet, RescaleCache) pair as the source. -/
def BitmapBundle.assign (_dst src : BitmapBundle) : BitmapBundle :=
  { ref := src.ref }

/-- `GetBitmap` lifted to handles over the shared-state heap: the handle's
shared state is read, the state-level `getBitmap` runs, and the possibly
extended cache is written back to the same shared slot.  The `Nat` component
counts Image-capability rescale invocations. -/
def getBitmapShared (h : Heap) (b : BitmapBundle) (target : Size) :
    Except BundleError Raster × Heap × Nat :=
  match h.states[b.ref]? with
  | none => (.error .invalidBundle, h, 0)
  | some st =>
    ((getBitmap st target).1,
     { states := h.states.set b.ref
         { variants := st.variants, cache := (getBitmap st target).2.1 } },
     (getBitmap st target).2.2)

/-- Strict preference between two variants for a given target, in the spec's
words: a strictly smaller distance of the scale factor from 1.0, or an equal
distance where the first variant needs no upscaling (scaleFactor ≤ 1) while
the second requires upscaling. -/
def strictlyPreferred (target : Size) (v u : Raster) : Prop :=
  scaleDist target v < scaleDist target u ∨
    (scaleDist target v = scaleDist target u ∧
      scaleFactor target v ≤ 1 ∧ 1 < scaleFactor target u)

instance (target : Size) (v u : Raster) :
    Decidable (strictlyPreferred target v u) :=
  inferInstanceAs
    (Decidable (scaleDist target v < scaleDist target u ∨
      (scaleDist target v = scaleDist target u ∧
        scaleFactor target v ≤ 1 ∧ 1 < scaleFactor target u)))

/-- The 48-pixel variant of the header's scale-distance example. -/
def raster48 : Raster := { ok := true, size := { w := 48, h := 48 }, tag := 0 }

/-- The 64-pixel variant of the header's scale-distance example. -/
def raster64 : Raster := { ok := true, size := { w := 64, h := 64 }, tag := 1 }

/-- The 56-pixel target of the header's scale-distance example (175%
resolution of a 32-pixel default). -/
def size56 : Size := { w := 56, h := 56 }

/-- `qmax` is the lattice maximum on ℚ. -/
theorem qmax_eq_max (a b : ℚ) : qmax a b = max a b := by
  unfold qmax
  rcases lt_or_ge a b with h | h
  · rw [if_pos h, max_eq_right (le_of_lt h)]
  · rw [if_neg (not_lt.mpr h), max_eq_left h]

/-- `qabs` is the absolute value on ℚ. -/
theorem qabs_eq_abs (q : ℚ) : qabs q = |q| := by
  unfold qabs
  rcases lt_or_ge q 0 with h | h
  · rw [if_pos h, abs_of_neg h]
  · rw [if_neg (not_lt.mpr h), abs_of_nonneg h]

/-- The scale factor agrees with the spec's formula
`max(target.width / variant.width, target.height / variant.height)` read
over the rationals. -/
theorem scaleFactor_eq (target : Size) (v : Raster) :
    scaleFactor target v =
      max ((target.w : ℚ) / (v.size.w : ℚ)) ((target.h : ℚ) / (v.size.h : ℚ)) := by
  unfold scaleFactor
  rw [qmax_eq_max, Rat.divInt_eq_div, Rat.divInt_eq_div]

/-- `qsub` is the subtraction on ℚ. -/
theorem qsub_eq_sub (a b : ℚ) : qsub a b = a - b := by
  unfold qsub
  rw [Rat.divInt_eq_div]
  push_cast
  have ha : ((a.den : ℚ)) ≠ 0 := Nat.cast_ne_zero.mpr a.den_nz
  have hb : ((b.den : ℚ)) ≠ 0 := Nat.cast_ne_zero.mpr b.den_nz
  conv_rhs => rw [← Rat.num_div_den a, ← Rat.num_div_den b]
  rw [div_sub_div _ _ ha hb]
  congr 1
  ring

/-- The scale distance is the absolute deviation of the scale factor
from 1.0. -/
theorem scaleDist_eq (target : Size) (v : Raster) :
    scaleDist target v = |scaleFactor target v - 1| := by
  unfold scaleDist
  rw [qabs_eq_abs, qsub_eq_sub]

/-- The lexicographic preference order is transitive. -/
theorem lexLt_trans {a b c : ℚ × ℚ} (h1 : lexLt a b) (h2 : lexLt b c) :
    lexLt a c := by
  rcases h1 with h1 | ⟨e1, h1⟩ <;> rcases h2 with h2 | ⟨e2, h2⟩
  · exact Or.inl (lt_trans h1 h2)
  · exact Or.inl (by rw [← e2]; exact h1)
  · exact Or.inl (by rw [e1]; exact h2)
  · exact Or.inr ⟨e1.trans e2, lt_trans h1 h2⟩

/-- If `a` is lexicographically below `b` while `c` is not, then `a` is
below `c` (totality of the underlying lexicographic order). -/
theorem lexLt_of_lexLt_of_not_lexLt {a b c : ℚ × ℚ}
    (h1 : lexLt a b) (h2 : ¬ lexLt c b) : lexLt a c := by
  unfold lexLt at h1 h2 ⊢
  push_neg at h2
  obtain ⟨h2a, h2b⟩ := h2
  rcases h1 with h1 | ⟨e1, h1⟩
  · exact Or.inl (lt_of_lt_of_le h1 h2a)
  · rcases lt_or_eq_of_le h2a with hbc | hbc
    · exact Or.inl (by rw [e1]; exact hbc)
    · exact Or.inr ⟨e1.trans hbc, lt_of_lt_of_le h1 (h2b hbc.symm)⟩

/-- Unfolding step of `selectBy` over a cons cell. -/
theorem selectBy_cons {α : Type} (k : α → ℚ × ℚ) (b v : α) (l : List α) :
    selectBy k b (v :: l) = selectBy k (if lexLt (k v) (k b) then v else b) l :=
  rfl

/-- `selectBy` returns the first element of `b :: l` (in order) whose key is
minimal: everything strictly before it has a strictly larger key, and nothing
after it has a strictly smaller key. -/
theorem selectBy_split {α : Type} (k : α → ℚ × ℚ) (b : α) (l : List α) :
    ∃ l₁ l₂, b :: l = l₁ ++ selectBy k b l :: l₂ ∧
      (∀ u ∈ l₁, lexLt (k (selectBy k b l)) (k u)) ∧
      (∀ u ∈ l₂, ¬ lexLt (k u) (k (selectBy k b l))) := by
  induction l generalizing b with
  | nil => exact ⟨[], [], rfl, by simp, by simp⟩
  | cons v t ih =>
    rw [selectBy_cons]
    by_cases hvb : lexLt (k v) (k b)
    · rw [if_pos hvb]
      obtain ⟨l₁, l₂, heq, hfront, hback⟩ := ih v
      have hmb : lexLt (k (selectBy k v t)) (k b) := by
        cases l₁ with
        | nil =>
          simp only [List.nil_append, List.cons.injEq] at heq
          rw [heq.1] at hvb
          exact hvb
        | cons x l₁t =>
          simp only [List.cons_append, List.cons.injEq] at heq
          have hvmem : v ∈ x :: l₁t := by
            rw [heq.1]; exact List.mem_cons_self x l₁t
          exact lexLt_trans (hfront v hvmem) hvb
      refine ⟨b :: l₁, l₂, ?_, ?_, hback⟩
      · rw [List.cons_append, ← heq]
      · intro u hu
        rcases List.mem_cons.mp hu with rfl | hu
        · exact hmb
        · exact hfront u hu
    · rw [if_neg hvb]
      obtain ⟨l₁, l₂, heq, hfront, hback⟩ := ih b
      cases l₁ with
      | nil =>
        simp only [List.nil_append, List.cons.injEq] at heq
        refine ⟨[], v :: t, ?_, by simp, ?_⟩
        · rw [List.nil_append, ← heq.1]
        · intro u hu
          rcases List.mem_cons.mp hu with rfl | hu
          · rw [← heq.1]; exact hvb
          · rw [← heq.1]
            rw [← heq.1] at hback
            exact hback u (heq.2 ▸ hu)
      | cons x l₁t =>
        simp only [List.cons_append, List.cons.injEq] at heq
        have hbmem : b ∈ x :: l₁t := by
          rw [heq.1]; exact List.mem_cons_self x l₁t
        have hmb : lexLt (k (selectBy k b t)) (k b) := hfront b hbmem
        refine ⟨b :: v :: l₁t, l₂, ?_, ?_, hback⟩
        · rw [List.cons_append, List.cons_append, ← heq.2]
        · intro u hu
          rcases List.mem_cons.mp hu with rfl | hu
          · exact hmb
          · rcases List.mem_cons.mp hu with rfl | hu
            · exact lexLt_of_lexLt_of_not_lexLt hmb hvb
            · exact hfront u (List.mem_cons_of_mem x hu)

/-- A successful `find?` splits the list around the first element satisfying
the predicate. -/
theorem find?_eq_some_split {α : Type} {p : α → Bool} {l : List α} {v : α}
    (h : l.find? p = some v) :
    ∃ l₁ l₂, l = l₁ ++ v :: l₂ ∧ p v = true ∧ ∀ u ∈ l₁, p u = false := by
  induction l with
  | nil => simp at h
  | cons a t ih =>
    by_cases hp : p a
    · rw [List.find?_cons_of_pos _ hp] at h
      obtain rfl : a = v := by injection h
      exact ⟨[], t, rfl, hp, by simp⟩
    · rw [List.find?_cons_of_neg _ hp] at h
      obtain ⟨l₁, l₂, rfl, hv, hall⟩ := ih h
      refine ⟨a :: l₁, l₂, rfl, hv, ?_⟩
      intro u hu
      rcases List.mem_cons.mp hu with rfl | hu
      · exact Bool.eq_false_iff.mpr hp
      · exact hall u hu

/-- The resolver always yields a variant on a non-empty set. -/
theorem resolve_isSome (set : VariantSet) (target : Size) (hne : set ≠ []) :
    ∃ v, resolve set target = some v := by
  cases set with
  | nil => exact absurd rfl hne
  | cons b rest =>
    unfold resolve
    cases hf : (b :: rest).find? (fun v => decide (v.size = target)) with
    | some v => exact ⟨v, rfl⟩
    | none => exact ⟨_, rfl⟩

/-- Storing under a key makes lookup of that key return the stored raster. -/
theorem find?_map_replace (c : RescaleCache) (t : Size) (r : Raster) :
    ((c.map (fun e => if e.1 = t then (t, r) else e)).find?
        (fun e => decide (e.1 = t))) =
      if (c.find? (fun e => decide (e.1 = t))).isSome then some (t, r)
      else none := by
  induction c with
  | nil => simp
  | cons e c ih =>
    by_cases he : e.1 = t
    · rw [List.map_cons, if_pos he, List.find?_cons_of_pos _ (by simp),
        List.find?_cons_of_pos _ (by simp [he])]
      simp
    · rw [List.map_cons, if_neg he, List.find?_cons_of_neg _ (by simp [he]),
        List.find?_cons_of_neg _ (by simp [he]), ih]

/-- Replacing the entries under key `t` does not affect lookups of a
different key `s`. -/
theorem find?_map_replace_ne (c : RescaleCache) (t : Size) (r : Raster)
    (s : Size) (hst : s ≠ t) :
    ((c.map (fun e => if e.1 = t then (t, r) else e)).find?
        (fun e => decide (e.1 = s))) =
      c.find? (fun e => decide (e.1 = s)) := by
  induction c with
  | nil => simp
  | cons e c ih =>
    by_cases he : e.1 = t
    · rw [List.map_cons, if_pos he,
        List.find?_cons_of_neg _ (by simp [Ne.symm hst]),
        List.find?_cons_of_neg _ (by simp [he, Ne.symm hst]), ih]
    · rw [List.map_cons, if_neg he]
      by_cases hes : e.1 = s
      · rw [List.find?_cons_of_pos _ (by simp [hes]),
          List.find?_cons_of_pos _ (by simp [hes])]
      · rw [List.find?_cons_of_neg _ (by simp [hes]),
          List.find?_cons_of_neg _ (by simp [hes]), ih]

/-- `Store` followed by `Lookup` of the same key yields the stored raster. -/
theorem lookup_store_self (c : RescaleCache) (t : Size) (r : Raster) :
    RescaleCache.lookup (RescaleCache.store c t r) t = some r := by
  unfold RescaleCache.store RescaleCache.lookup
  by_cases hc : (c.find? (fun e => decide (e.1 = t))).isSome
  · rw [if_pos hc, find?_map_replace, if_pos hc]
    rfl
  · rw [if_neg hc, List.find?_append,
      Option.not_isSome_iff_eq_none.mp hc]
    simp

/-- `Store` leaves lookups of other keys unchanged. -/
theorem lookup_store_ne (c : RescaleCache) (t : Size) (r : Raster)
    (s : Size) (hst : s ≠ t) :
    RescaleCache.lookup (RescaleCache.store c t r) s =
      RescaleCache.lookup c s := by
  unfold RescaleCache.store RescaleCache.lookup
  by_cases hc : (c.find? (fun e => decide (e.1 = t))).isSome
  · rw [if_pos hc, find?_map_replace_ne c t r s hst]
  · rw [if_neg hc, List.find?_append]
    cases hfc : c.find? (fun e => decide (e.1 = s)) with
    | some e => simp
    | none => simp [Ne.symm hst]

/-- Storing the same (target, raster) pair twice is a no-op on the cache. -/
theorem store_store_self (c : RescaleCache) (t : Size) (r : Raster) :
    RescaleCache.store (RescaleCache.store c t r) t r =
      RescaleCache.store c t r := by
  have hsome :
      ((RescaleCache.store c t r).find? (fun e => decide (e.1 = t))).isSome := by
    have hl := lookup_store_self c t r
    unfold RescaleCache.lookup at hl
    cases hf : (RescaleCache.store c t r).find? (fun e => decide (e.1 = t)) with
    | none => rw [hf] at hl; simp at hl
    | some e => simp
  conv_lhs => rw [RescaleCache.store]
  rw [if_pos hsome]
  unfold RescaleCache.store
  by_cases hc : (c.find? (fun e => decide (e.1 = t))).isSome
  · rw [if_pos hc, List.map_map]
    apply List.map_congr_left
    intro e _
    by_cases he : e.1 = t
    · simp [Function.comp, he]
    · simp [Function.comp, he]
  · rw [if_neg hc, List.map_append]
    have hnone : c.find? (fun e => decide (e.1 = t)) = none :=
      Option.not_isSome_iff_eq_none.mp hc
    have hkeys := List.find?_eq_none.mp hnone
    have hmapc : c.map (fun e => if e.1 = t then (t, r) else e) = c := by
      conv_rhs => rw [← List.map_id c]
      apply List.map_congr_left
      intro e he
      have : ¬ e.1 = t := by simpa using hkeys e he
      simp [this]
    rw [hmapc]
    simp

/-- After a successful `GetBitmap`, repeating the call with the resulting
cache returns the same raster with no rescale invocation; when the first
call did rescale, the repeat is served by a cache hit. -/
theorem getBitmap_repeat {vs : VariantSet} {cache0 : RescaleCache}
    {target : Size} {r : Raster} {c : RescaleCache} {n : Nat}
    (h : getBitmap ⟨vs, cache0⟩ target = (.ok r, c, n)) :
    getBitmap ⟨vs, c⟩ target = (.ok r, c, 0) ∧
      (n ≠ 0 → RescaleCache.lookup c target = some r) := by
  unfold getBitmap at h ⊢
  simp only at h ⊢
  by_cases hemp : vs = []
  · rw [if_pos hemp] at h
    exact absurd h (by simp)
  · rw [if_neg hemp] at h
    rw [if_neg hemp]
    by_cases htgt : target.isEmpty
    · rw [if_pos htgt] at h
      exact absurd h (by simp)
    · rw [if_neg htgt] at h
      rw [if_neg htgt]
      cases hf : vs.find? (fun v => decide (v.size = target)) with
      | some v =>
        rw [hf] at h
        simp only [Prod.mk.injEq, Except.ok.injEq] at h
        obtain ⟨rfl, rfl, rfl⟩ := h
        exact ⟨rfl, fun hn => absurd rfl hn⟩
      | none =>
        rw [hf] at h
        cases hl : RescaleCache.lookup cache0 target with
        | some r0 =>
          rw [hl] at h
          simp only [Prod.mk.injEq, Except.ok.injEq] at h
          obtain ⟨rfl, rfl, rfl⟩ := h
          rw [hl]
          exact ⟨rfl, fun hn => absurd rfl hn⟩
        | none =>
          rw [hl] at h
          cases hr : resolve vs target with
          | none =>
            rw [hr] at h
            exact absurd h (by simp)
          | some src =>
            rw [hr] at h
            simp only [Prod.mk.injEq, Except.ok.injEq] at h
            obtain ⟨rfl, rfl, rfl⟩ := h
            rw [lookup_store_self]
            exact ⟨rfl, fun _ => rfl⟩

/-- On an OK bundle and a non-empty target, `GetBitmap` succeeds. -/
theorem getBitmap_ok {vs : VariantSet} {cache0 : RescaleCache} {target : Size}
    (hne : vs ≠ []) (ht : ¬ target.isEmpty) :
    ∃ r c n, getBitmap ⟨vs, cache0⟩ target = (.ok r, c, n) := by
  unfold getBitmap
  simp only
  rw [if_neg hne, if_neg ht]
  cases hf : vs.find? (fun v => decide (v.size = target)) with
  | some v => exact ⟨v, cache0, 0, rfl⟩
  | none =>
    cases hl : RescaleCache.lookup cache0 target with
    | some r => exact ⟨r, cache0, 0, rfl⟩
    | none =>
      obtain ⟨src, hr⟩ := resolve_isSome vs target hne
      rw [hr]
      exact ⟨_, _, _, rfl⟩

/-- The internal lexicographic key order coincides with the spec's strict
preference between variants. -/
theorem lexLt_resolveKey_iff (target : Size) (v u : Raster) :
    lexLt (resolveKey target v) (resolveKey target u) ↔
      strictlyPreferred target v u := by
  unfold lexLt resolveKey strictlyPreferred
  by_cases hv : scaleFactor target v ≤ 1 <;>
    by_cases hu : scaleFactor target u ≤ 1
  · rw [if_pos hv, if_pos hu]
    constructor
    · rintro (h | ⟨he, h0⟩)
      · exact Or.inl h
      · exact absurd h0 (lt_irrefl 0)
    · rintro (h | ⟨he, hle, hgt⟩)
      · exact Or.inl h
      · exact absurd hgt (not_lt.mpr hu)
  · rw [if_pos hv, if_neg hu]
    constructor
    · rintro (h | ⟨he, h0⟩)
      · exact Or.inl h
      · exact Or.inr ⟨he, hv, not_le.mp hu⟩
    · rintro (h | ⟨he, hle, hgt⟩)
      · exact Or.inl h
      · exact Or.inr ⟨he, by norm_num⟩
  · rw [if_neg hv, if_pos hu]
    constructor
    · rintro (h | ⟨he, h0⟩)
      · exact Or.inl h
      · exact absurd h0 (by norm_num)
    · rintro (h | ⟨he, hle, hgt⟩)
      · exact Or.inl h
      · exact absurd hle hv
  · rw [if_neg hv, if_neg hu]
    constructor
    · rintro (h | ⟨he, h0⟩)
      · exact Or.inl h
      · exact absurd h0 (lt_irrefl 1)
    · rintro (h | ⟨he, hle, hgt⟩)
      · exact Or.inl h
      · exact absurd hle hv

/-- The cache after a `GetBitmap` call is either untouched or extended by a
single `Store` for the requested target. -/
theorem getBitmap_cache_eq (st : BundleState) (target : Size) :
    (getBitmap st target).2.1 = st.cache ∨
      ∃ r, (getBitmap st target).2.1 =
        RescaleCache.store st.cache target r := by
  obtain ⟨vs, c0⟩ := st
  unfold getBitmap
  simp only
  by_cases h1 : vs = []
  · rw [if_pos h1]
    exact Or.inl rfl
  · rw [if_neg h1]
    by_cases h2 : target.isEmpty
    · rw [if_pos h2]
      exact Or.inl rfl
    · rw [if_neg h2]
      cases hf : vs.find? (fun v => decide (v.size = target)) with
      | some v => exact Or.inl rfl
      | none =>
        cases hl : RescaleCache.lookup c0 target with
        | some r => exact Or.inl rfl
        | none =>
          cases hr : resolve vs target with
          | none => exact Or.inl rfl
          | some src => exact Or.inr ⟨_, rfl⟩

/-- Writing back the value already stored at an index leaves a list
unchanged. -/
theorem set_eq_of_getElem_eq {α : Type} (l : List α) (i : Nat) (a : α)
    (h : l[i]? = some a) : l.set i a = l := by
  induction l generalizing i with
  | nil => simp at h
  | cons x t ih =>
    cases i with
    | zero =>
      simp only [List.getElem?_cons_zero, Option.some.injEq] at h
      rw [← h]
      rfl
    | succ j =>
      simp only [List.getElem?_cons_succ] at h
      rw [List.set_cons_succ, ih j h]

/-- Unfolding equation of `getBitmapShared` when the handle's slot is
present. -/
theorem getBitmapShared_eq_of_get {h : Heap} {b : BitmapBundle}
    {st : BundleState} (hst : h.states[b.ref]? = some st) (target : Size) :
    getBitmapShared h b target =
      ((getBitmap st target).1,
       { states := h.states.set b.ref
           { variants := st.variants, cache := (getBitmap st target).2.1 } },
       (getBitmap st target).2.2) := by
  unfold getBitmapShared
  rw [hst]

/-- A bundle is OK exactly when its VariantSet is non-empty. -/
theorem isOk_iff (st : BundleState) : st.isOk = true ↔ st.variants ≠ [] := by
  unfold BundleState.isOk
  rw [Bool.not_eq_true']
  rw [← Bool.not_eq_true]
  rw [List.isEmpty_iff]

/-- Claim C1: on a non-empty VariantSet and non-empty target with no
exact-size match, `Resolve` selects the variant whose scale factor is
closest to 1.0, preferring among ties a variant requiring no upscaling over
one requiring upscaling, then the first in insertion order (everything
before the chosen variant is strictly worse, nothing after it is strictly
better); in particular, for variants of sizes 48 and 64 and target 56, the
64-pixel variant is chosen. -/
theorem C1_resolver_closest_scale (set : VariantSet) (target : Size)
    (hne : set ≠ []) (ht : ¬ target.isEmpty)
    (hnoexact : ∀ v ∈ set, v.size ≠ target) :
    (∃ v l₁ l₂, resolve set target = some v ∧ set = l₁ ++ v :: l₂ ∧
        (∀ u ∈ l₁, strictlyPreferred target v u) ∧
        (∀ u ∈ l₂, ¬ strictlyPreferred target u v)) ∧
    resolve [raster48, raster64] size56 = some raster64 := by
  constructor
  · cases set with
    | nil => exact absurd rfl hne
    | cons b rest =>
      have hf : (b :: rest).find? (fun v => decide (v.size = target)) = none :=
        List.find?_eq_none.mpr (fun v hv => by simpa using hnoexact v hv)
      obtain ⟨l₁, l₂, heq, hfront, hback⟩ :=
        selectBy_split (resolveKey target) b rest
      refine ⟨selectBy (resolveKey target) b rest, l₁, l₂, ?_, heq, ?_, ?_⟩
      · unfold resolve
        rw [hf]
      · intro u hu
        exact (lexLt_resolveKey_iff target _ u).mp (hfront u hu)
      · intro u hu hpref
        exact hback u hu ((lexLt_resolveKey_iff target u _).mpr hpref)
  · decide

/-- Witness for C1 at the concrete 48/64 variant set and 56-pixel target. -/
theorem C1_resolver_closest_scale_witness :
    (([raster48, raster64] : VariantSet) ≠ [] ∧ ¬ size56.isEmpty ∧
      (∀ v ∈ ([raster48, raster64] : VariantSet), v.size ≠ size56)) ∧
    ((∃ v l₁ l₂, resolve [raster48, raster64] size56 = some v ∧
        ([raster48, raster64] : VariantSet) = l₁ ++ v :: l₂ ∧
        (∀ u ∈ l₁, strictlyPreferred size56 v u) ∧
        (∀ u ∈ l₂, ¬ strictlyPreferred size56 u v)) ∧
      resolve [raster48, raster64] size56 = some raster64) :=
  ⟨⟨by decide, by decide, by decide⟩,
    C1_resolver_closest_scale [raster48, raster64] size56
      (by decide) (by decide) (by decide)⟩

/-- Claim C2: whenever the target size equals the size of some variant,
`Resolve` returns the first exact match in insertion order, and `GetBitmap`
returns that variant directly with no rescale invocation and no cache
mutation. -/
theorem C2_exact_size_match (set : VariantSet) (target : Size)
    (cache : RescaleCache)
    (hexact : ∃ v ∈ set, v.size = target) (ht : ¬ target.isEmpty) :
    ∃ v l₁ l₂, set = l₁ ++ v :: l₂ ∧ v.size = target ∧
      (∀ u ∈ l₁, u.size ≠ target) ∧
      resolve set target = some v ∧
      getBitmap ⟨set, cache⟩ target = (.ok v, cache, 0) := by
  have hne : set ≠ [] := by
    rintro rfl
    simp at hexact
  have hsome : (set.find? (fun v => decide (v.size = target))).isSome :=
    List.find?_isSome.mpr
      (by
        obtain ⟨v, hv, he⟩ := hexact
        exact ⟨v, hv, by simpa using he⟩)
  obtain ⟨v, hf⟩ := Option.isSome_iff_exists.mp hsome
  obtain ⟨l₁, l₂, heq, hp, hall⟩ := find?_eq_some_split hf
  refine ⟨v, l₁, l₂, heq, by simpa using hp, ?_, ?_, ?_⟩
  · intro u hu
    simpa using hall u hu
  · unfold resolve
    rw [hf]
  · unfold getBitmap
    simp only
    rw [if_neg hne, if_neg ht, hf]

/-- Witness for C2: a two-variant set where the target matches the second
variant exactly. -/
theorem C2_exact_size_match_witness :
    ((∃ v ∈ ([raster48, raster64] : VariantSet),
        v.size = ({ w := 64, h := 64 } : Size)) ∧
      ¬ ({ w := 64, h := 64 } : Size).isEmpty) ∧
    (∃ v l₁ l₂, ([raster48, raster64] : VariantSet) = l₁ ++ v :: l₂ ∧
      v.size = ({ w := 64, h := 64 } : Size) ∧
      (∀ u ∈ l₁, u.size ≠ ({ w := 64, h := 64 } : Size)) ∧
      resolve [raster48, raster64] { w := 64, h := 64 } = some v ∧
      getBitmap ⟨[raster48, raster64], []⟩ { w := 64, h := 64 } =
        (.ok v, [], 0)) :=
  ⟨⟨by decide, by decide⟩,
    C2_exact_size_match [raster48, raster64] { w := 64, h := 64 } []
      (by decide) (by decide)⟩

/-- Counterexample to C3 as stated: on the one-variant bundle of the
48-pixel raster with target 48, both `GetBitmap` calls return the variant
directly through the exact-size path; the cache stays empty, so the second
call is not answered from the RescaleCache (there is no entry to answer
from), although no rescale happens either. -/
theorem C3_counterexample :
    getBitmap ⟨[raster48], []⟩ { w := 48, h := 48 } =
      (.ok raster48, [], 0) ∧
    RescaleCache.lookup [] { w := 48, h := 48 } = none :=
  ⟨rfl, rfl⟩

/-- Claim C3 amended: on an OK bundle and a non-empty target, `GetBitmap`
succeeds, and repeating the call with the resulting cache returns the same
raster (hence one of identical size) with zero rescale invocations;
whenever the first call did rescale, the repeat is answered by a cache hit
for the target. -/
theorem C3_get_bitmap_idempotent (st : BundleState) (target : Size)
    (hok : st.isOk = true) (ht : ¬ target.isEmpty) :
    ∃ r c n, getBitmap st target = (.ok r, c, n) ∧
      getBitmap ⟨st.variants, c⟩ target = (.ok r, c, 0) ∧
      (n ≠ 0 → RescaleCache.lookup c target = some r) := by
  obtain ⟨vs, cache0⟩ := st
  have hne : vs ≠ [] := (isOk_iff ⟨vs, cache0⟩).mp hok
  obtain ⟨r, c, n, h⟩ := @getBitmap_ok vs cache0 target hne ht
  obtain ⟨h2, h3⟩ := getBitmap_repeat h
  exact ⟨r, c, n, h, h2, h3⟩

/-- Witness for C3 at the 48/64 bundle and the 56-pixel target. -/
theorem C3_get_bitmap_idempotent_witness :
    ((⟨[raster48, raster64], []⟩ : BundleState).isOk = true ∧
      ¬ size56.isEmpty) ∧
    (∃ r c n,
      getBitmap ⟨[raster48, raster64], []⟩ size56 = (.ok r, c, n) ∧
      getBitmap ⟨[raster48, raster64], c⟩ size56 = (.ok r, c, 0) ∧
      (n ≠ 0 → RescaleCache.lookup c size56 = some r)) :=
  ⟨⟨by decide, by decide⟩,
    C3_get_bitmap_idempotent ⟨[raster48, raster64], []⟩ size56
      (by decide) (by decide)⟩

/-- Claim C4: on a non-empty bundle, `GetDefaultSize` returns the size of
the variant with the smallest area, ties resolved in favour of the first
variant in insertion order (everything before it is strictly larger in
area, nothing after it is smaller); on a bundle that is not OK it fails
with `InvalidBundle`. -/
theorem C4_default_size (st : BundleState) :
    (st.variants ≠ [] → ∃ v l₁ l₂,
        st.variants = l₁ ++ v :: l₂ ∧
        getDefaultSize st = .ok v.size ∧
        (∀ u ∈ l₁, v.size.area < u.size.area) ∧
        (∀ u ∈ l₂, v.size.area ≤ u.size.area)) ∧
    (st.isOk = false → getDefaultSize st = .error .invalidBundle) := by
  obtain ⟨vs, cache0⟩ := st
  constructor
  · intro hne
    cases vs with
    | nil => exact absurd rfl hne
    | cons b rest =>
      obtain ⟨l₁, l₂, heq, hfront, hback⟩ :=
        selectBy_split (fun v => ((v.size.area : ℚ), 0)) b rest
      refine ⟨selectBy (fun v => ((v.size.area : ℚ), 0)) b rest, l₁, l₂,
        heq, rfl, ?_, ?_⟩
      · intro u hu
        rcases hfront u hu with h | ⟨_, h0⟩
        · have h1 :
              ((selectBy (fun v => ((v.size.area : ℚ), 0)) b rest).size.area : ℚ)
                < (u.size.area : ℚ) := h
          exact_mod_cast h1
        · exact absurd h0 (lt_irrefl 0)
      · intro u hu
        by_contra hcon
        push_neg at hcon
        refine hback u hu (Or.inl ?_)
        show (u.size.area : ℚ) <
          ((selectBy (fun v => ((v.size.area : ℚ), 0)) b rest).size.area : ℚ)
        exact_mod_cast hcon
  · intro hnotok
    have hnil : vs = [] := by
      by_contra hne
      rw [(isOk_iff ⟨vs, cache0⟩).mpr hne] at hnotok
      exact absurd hnotok (by simp)
    subst hnil
    rfl

/-- Witness for C4: the 48/64 bundle (default size from the smaller 48-pixel
variant) and the empty bundle (InvalidBundle). -/
theorem C4_default_size_witness :
    ((⟨[raster48, raster64], []⟩ : BundleState).variants ≠ [] ∧
      ∃ v l₁ l₂,
        (⟨[raster48, raster64], []⟩ : BundleState).variants = l₁ ++ v :: l₂ ∧
        getDefaultSize ⟨[raster48, raster64], []⟩ = .ok v.size ∧
        (∀ u ∈ l₁, v.size.area < u.size.area) ∧
        (∀ u ∈ l₂, v.size.area ≤ u.size.area)) ∧
    (emptyBundle.isOk = false ∧
      getDefaultSize emptyBundle = .error .invalidBundle) :=
  ⟨⟨by decide, (C4_default_size ⟨[raster48, raster64], []⟩).1 (by decide)⟩,
   ⟨by decide, (C4_default_size emptyBundle).2 (by decide)⟩⟩

/-- Claim C5: construction is all-or-nothing: `FromBitmaps` on an empty
input yields the empty sentinel (not OK), and any invalid raster in a
non-empty input rejects the whole construction, yielding the empty sentinel
rather than a bundle of the valid subset. -/
theorem C5_all_or_nothing (bs : List Raster) :
    (bs = [] → fromBitmaps bs = emptyBundle ∧ (fromBitmaps bs).isOk = false) ∧
    (∀ r ∈ bs, Image.validate r = false →
      fromBitmaps bs = emptyBundle ∧ (fromBitmaps bs).isOk = false) := by
  constructor
  · rintro rfl
    exact ⟨rfl, rfl⟩
  · intro r hr hbad
    have hall : bs.all Image.validate = false := by
      rw [List.all_eq_false]
      exact ⟨r, hr, by simp [hbad]⟩
    have hvar : VariantSet.fromRasters bs = [] := by
      unfold VariantSet.fromRasters
      rw [hall]
      simp
    constructor
    · unfold fromBitmaps emptyBundle
      rw [hvar]
    · unfold fromBitmaps BundleState.isOk
      simp only
      rw [hvar]
      rfl

/-- Witness for C5: the empty input, and an input with one invalid raster
between two valid ones. -/
theorem C5_all_or_nothing_witness :
    (([] : List Raster) = [] ∧ fromBitmaps [] = emptyBundle ∧
      (fromBitmaps []).isOk = false) ∧
    (({ ok := false, size := { w := 16, h := 16 }, tag := 7 } : Raster) ∈
        [raster48, { ok := false, size := { w := 16, h := 16 }, tag := 7 },
          raster64] ∧
      Image.validate { ok := false, size := { w := 16, h := 16 }, tag := 7 }
        = false ∧
      fromBitmaps
          [raster48, { ok := false, size := { w := 16, h := 16 }, tag := 7 },
            raster64] = emptyBundle ∧
      (fromBitmaps
          [raster48, { ok := false, size := { w := 16, h := 16 }, tag := 7 },
            raster64]).isOk = false) :=
  ⟨⟨rfl,
    (C5_all_or_nothing []).1 rfl⟩,
   ⟨by decide, by decide,
    (C5_all_or_nothing
        [raster48, { ok := false, size := { w := 16, h := 16 }, tag := 7 },
          raster64]).2
      { ok := false, size := { w := 16, h := 16 }, tag := 7 }
      (by decide) (by decide)⟩⟩

/-- Counterexample to C6 as stated: on the empty (not-OK) bundle with the
empty target size (0, 0), `GetBitmap` fails with `InvalidBundle`, not with
`InvalidSize`, because the OK check precedes the size check. -/
theorem C6_counterexample :
    (getBitmap emptyBundle { w := 0, h := 0 }).1 =
        Except.error BundleError.invalidBundle ∧
      (getBitmap emptyBundle { w := 0, h := 0 }).1 ≠
        Except.error BundleError.invalidSize := by
  refine ⟨rfl, fun h => ?_⟩
  have h2 : (Except.error BundleError.invalidBundle :
      Except BundleError Raster) = Except.error BundleError.invalidSize := h
  injection h2 with h3
  exact BundleError.noConfusion h3

/-- Claim C6 amended: on every OK bundle, `GetBitmap` with an empty target
size fails with `InvalidSize` and leaves the cache exactly as it was, with
no rescale invocation. -/
theorem C6_invalid_size (st : BundleState) (target : Size)
    (hok : st.isOk = true) (ht : target.isEmpty) :
    getBitmap st target = (.error .invalidSize, st.cache, 0) := by
  obtain ⟨vs, c0⟩ := st
  have hne : vs ≠ [] := (isOk_iff ⟨vs, c0⟩).mp hok
  unfold getBitmap
  simp only
  rw [if_neg hne, if_pos ht]

/-- Witness for C6 (amended) at the 48/64 bundle and the target (0, -3). -/
theorem C6_invalid_size_witness :
    ((⟨[raster48, raster64], []⟩ : BundleState).isOk = true ∧
      ({ w := 0, h := -3 } : Size).isEmpty) ∧
    getBitmap ⟨[raster48, raster64], []⟩ { w := 0, h := -3 } =
      (.error .invalidSize, [], 0) :=
  ⟨⟨by decide, by decide⟩,
    C6_invalid_size ⟨[raster48, raster64], []⟩ { w := 0, h := -3 }
      (by decide) (by decide)⟩

/-- Claim C7: copying or assigning a bundle makes both handles refer to the
same shared (VariantSet, RescaleCache) pair without copying cache contents,
so a `GetBitmap` on the copy for a size already resolved through the
original is answered with the same raster from the shared state with no
further rescale invocation. -/
theorem C7_shared_cache (h : Heap) (b : BitmapBundle) (target : Size)
    (r : Raster) (hp : Heap) (n : Nat)
    (hcall : getBitmapShared h b target = (.ok r, hp, n)) :
    BitmapBundle.copy b = b ∧
    (∀ d : BitmapBundle, BitmapBundle.assign d b = b) ∧
    getBitmapShared hp (BitmapBundle.copy b) target = (.ok r, hp, 0) := by
  refine ⟨rfl, fun d => rfl, ?_⟩
  cases hst : h.states[b.ref]? with
  | none =>
    unfold getBitmapShared at hcall
    rw [hst] at hcall
    exact absurd hcall (by simp)
  | some st =>
    rw [getBitmapShared_eq_of_get hst target] at hcall
    obtain ⟨vs, c0⟩ := st
    simp only [Prod.mk.injEq] at hcall
    obtain ⟨hres, hheap, hn⟩ := hcall
    have hfull : getBitmap ⟨vs, c0⟩ target =
        (.ok r, (getBitmap ⟨vs, c0⟩ target).2.1,
          (getBitmap ⟨vs, c0⟩ target).2.2) := by
      rw [← hres]
    obtain ⟨hrep, hcache⟩ := getBitmap_repeat hfull
    have hlt : b.ref < h.states.length := by
      rcases List.getElem?_eq_some_iff.mp hst with ⟨hl, _⟩
      exact hl
    have hget : hp.states[b.ref]? =
        some ⟨vs, (getBitmap ⟨vs, c0⟩ target).2.1⟩ := by
      rw [← hheap]
      simp [List.getElem?_set_self, hlt]
    have hset : hp.states.set b.ref
        ⟨vs, (getBitmap ⟨vs, c0⟩ target).2.1⟩ = hp.states := by
      apply set_eq_of_getElem_eq
      exact hget
    rw [show BitmapBundle.copy b = b from rfl,
      getBitmapShared_eq_of_get hget target]
    rw [hrep]
    simp only [Prod.mk.injEq]
    refine ⟨trivial, ?_, trivial⟩
    cases hp with
    | mk states =>
      simp only [Heap.mk.injEq]
      simpa using hset

/-- Witness for C7: a one-slot heap holding the 48/64 bundle, resolved at
the 56-pixel target. -/
theorem C7_shared_cache_witness :
    (getBitmapShared ⟨[⟨[raster48, raster64], []⟩]⟩ ⟨0⟩ size56 =
      (.ok (Image.resize raster64 size56),
        ⟨[⟨[raster48, raster64],
            [(size56, Image.resize raster64 size56)]⟩]⟩, 1)) ∧
    (BitmapBundle.copy ⟨0⟩ = ⟨0⟩ ∧
      (∀ d : BitmapBundle, BitmapBundle.assign d ⟨0⟩ = ⟨0⟩) ∧
      getBitmapShared
          ⟨[⟨[raster48, raster64],
              [(size56, Image.resize raster64 size56)]⟩]⟩
          (BitmapBundle.copy ⟨0⟩) size56 =
        (.ok (Image.resize raster64 size56),
          ⟨[⟨[raster48, raster64],
              [(size56, Image.resize raster64 size56)]⟩]⟩, 0)) :=
  ⟨rfl,
    C7_shared_cache ⟨[⟨[raster48, raster64], []⟩]⟩ ⟨0⟩ size56
      (Image.resize raster64 size56)
      ⟨[⟨[raster48, raster64],
          [(size56, Image.resize raster64 size56)]⟩]⟩ 1
      rfl⟩

/-- Claim C8: the RescaleCache only grows: `Store` makes the stored entry
retrievable, never removes any cached key, and storing the same pair twice
is a no-op; consequently every key cached before any `GetBitmap` call is
still cached afterwards (`Lookup`, being a pure function, never modifies the
cache at all). -/
theorem C8_cache_monotone (c : RescaleCache) (t s : Size) (r : Raster)
    (st : BundleState) (target : Size) :
    RescaleCache.lookup (RescaleCache.store c t r) t = some r ∧
    ((RescaleCache.lookup c s).isSome →
      (RescaleCache.lookup (RescaleCache.store c t r) s).isSome) ∧
    RescaleCache.store (RescaleCache.store c t r) t r =
      RescaleCache.store c t r ∧
    ((RescaleCache.lookup st.cache s).isSome →
      (RescaleCache.lookup (getBitmap st target).2.1 s).isSome) := by
  refine ⟨lookup_store_self c t r, ?_, store_store_self c t r, ?_⟩
  · intro hs
    by_cases hst : s = t
    · subst hst
      rw [lookup_store_self]
      rfl
    · rw [lookup_store_ne c t r s hst]
      exact hs
  · intro hs
    rcases getBitmap_cache_eq st target with hcc | ⟨r0, hcc⟩
    · rw [hcc]
      exact hs
    · rw [hcc]
      by_cases hst : s = target
      · subst hst
        rw [lookup_store_self]
        rfl
      · rw [lookup_store_ne st.cache target r0 s hst]
        exact hs

/-- Witness for C8 at a one-entry cache and the 48/64 bundle, with the
hypotheses of the conditional parts discharged at those inputs. -/
theorem C8_cache_monotone_witness :
    RescaleCache.lookup
        (RescaleCache.store [(size56, Image.resize raster64 size56)]
          { w := 32, h := 32 } raster48)
        { w := 32, h := 32 } = some raster48 ∧
    (RescaleCache.lookup
        (RescaleCache.store [(size56, Image.resize raster64 size56)]
          { w := 32, h := 32 } raster48) size56).isSome ∧
    RescaleCache.store
        (RescaleCache.store [(size56, Image.resize raster64 size56)]
          { w := 32, h := 32 } raster48)
        { w := 32, h := 32 } raster48 =
      RescaleCache.store [(size56, Image.resize raster64 size56)]
        { w := 32, h := 32 } raster48 ∧
    (RescaleCache.lookup
        (getBitmap
          ⟨[raster48, raster64],
            [(size56, Image.resize raster64 size56)]⟩
          { w := 40, h := 40 }).2.1 size56).isSome := by
  have h := C8_cache_monotone [(size56, Image.resize raster64 size56)]
    { w := 32, h := 32 } size56 raster48
    ⟨[raster48, raster64], [(size56, Image.resize raster64 size56)]⟩
    { w := 40, h := 40 }
  exact ⟨h.1, h.2.1 (by decide), h.2.2.1, h.2.2.2 (by decide)⟩

/-- Claim C9: the conversion constructor from a single bitmap produces a
bundle observationally equal to `FromBitmap`: same `IsOk`, same
`GetDefaultSize`, and the same `GetBitmap` result at every requested
size. -/
theorem C9_ctor_matches_from_bitmap (b : Raster) :
    (bundleOfBitmap b).isOk = (fromBitmap b).isOk ∧
    getDefaultSize (bundleOfBitmap b) = getDefaultSize (fromBitmap b) ∧
    ∀ t : Size, getBitmap (bundleOfBitmap b) t = getBitmap (fromBitmap b) t := by
  have h : bundleOfBitmap b = fromBitmap b := by
    unfold bundleOfBitmap fromBitmap VariantSet.fromSingle
    rfl
  rw [h]
  exact ⟨rfl, rfl, fun t => rfl⟩

/-- Claim C10: the two-argument convenience overload `FromBitmaps(a, b)`
produces a bundle observationally equal to `FromBitmaps` on the two-element
vector [a, b] in that order: equal state, same `IsOk`, same
`GetDefaultSize`, and the same `GetBitmap` result at every requested
size. -/
theorem C10_two_bitmap_overload (a b : Raster) :
    fromBitmaps2 a b = fromBitmaps [a, b] ∧
    (fromBitmaps2 a b).isOk = (fromBitmaps [a, b]).isOk ∧
    getDefaultSize (fromBitmaps2 a b) = getDefaultSize (fromBitmaps [a, b]) ∧
    ∀ t : Size, getBitmap (fromBitmaps2 a b) t = getBitmap (fromBitmaps [a, b]) t :=
  ⟨rfl, rfl, rfl, fun _ => rfl⟩

end BmpBndl
